import Mathlib

/-!
Verification of the SnakeSaver simulation (`src/__init__.py`).

The Python program mutates an object graph of `Cell`s.  We embed it with an
arena of cell identifiers (`CellId := Nat`): the immutable connectivity graph
(`Graph`) holds each cell's insertion-ordered `connections` dict, and the
mutable per-cell fields `_next_snake` / `_is_food` form a state (`St`).
Python exceptions become `Except Err`; the uses of `random.choice` are
modelled by explicit `pick` parameters that are validated for membership in
the list `choice` would have drawn from (an invalid pick yields the marker
error `badPick`, which corresponds to no actual run).  Unbounded loops and
recursion carry explicit fuel; running out of fuel yields the marker error
`fuelOut`, so every `.ok` result is fuel-independent and matches Python.
-/

namespace SnakeSaver

abbrev CellId := Nat

/-- Exceptions of the Python module: `LogicError`, `GameOver`, `GameWon`,
the builtin `IndexError` (raised by `random.choice` on an empty list) and
`KeyError` (raised by a dict lookup with a missing key), plus the two
modelling markers `badPick` and `fuelOut` described in the file header. -/
inductive Err where
  | logicError
  | gameOver
  | gameWon
  | indexError
  | keyError
  | badPick
  | fuelOut
deriving DecidableEq

/-- Mutable board state: per cell, the `_next_snake` link and `_is_food`
flag of `Cell.__init__`. -/
structure St where
  nextSnake : CellId → Option CellId
  isFood : CellId → Bool

/-- Immutable topology: the set of cells owned by the `Board` and, per cell,
its `connections` dict as an insertion-ordered association list from
neighbour to optional continuation cell. -/
structure Graph where
  cells : List CellId
  conn : CellId → List (CellId × Option CellId)

/-- State of freshly constructed cells: no snake links, no food. -/
def emptySt : St := ⟨fun _ => none, fun _ => false⟩

/-- Property `Cell.is_snake`: true iff the cell has a non-null `next_snake`. -/
def isSnake (s : St) (c : CellId) : Bool := (s.nextSnake c).isSome

/-- Property `Cell.neighbours`: the keys of the `connections` dict, in
insertion order. -/
def neighbours (g : Graph) (c : CellId) : List CellId := (g.conn c).map Prod.fst

/-- Dict lookup `cell.connections[key]`; `none` models a `KeyError`. -/
def connLookup (g : Graph) (c k : CellId) : Option (Option CellId) :=
  ((g.conn c).find? (fun p => p.1 == k)).map Prod.snd

/-- Raw field update of `_next_snake` (the body of the setter). -/
def updNext (s : St) (c : CellId) (v : Option CellId) : St :=
  ⟨fun x => if x = c then v else s.nextSnake x, s.isFood⟩

/-- Raw field update of `_is_food` (the body of the setter). -/
def updFood (s : St) (c : CellId) (v : Bool) : St :=
  ⟨s.nextSnake, fun x => if x = c then v else s.isFood x⟩

/-- Setter `Cell.next_snake`: raises `LogicError` when the cell is food and
the new value is not `None`. -/
def setNextSnake (s : St) (c : CellId) (v : Option CellId) : Except Err St :=
  if s.isFood c && v.isSome then .error .logicError
  else .ok (updNext s c v)

/-- Setter `Cell.is_food`: raises `LogicError` when the cell is snake and the
new value is truthy. -/
def setIsFood (s : St) (c : CellId) (v : Bool) : Except Err St :=
  if isSnake s c && v then .error .logicError
  else .ok (updFood s c v)

/-- Classmethod `Cell._is_passable`: not `None` and not snake. -/
def isPassable (s : St) : Option CellId → Bool
  | none => false
  | some c => !(isSnake s c)

/-- The `while` lookahead loop of `Cell.find_next_snake_head`: starting from
the pair (`prev`, `cur`) with visited set `seen`, repeatedly step to the
continuation cell `cur.connections[prev]` while it is passable and unseen;
report whether a food cell was reached. -/
def corridorFindsFood (g : Graph) (s : St) :
    Nat → CellId → CellId → List CellId → Except Err Bool
  | 0, _, _, _ => .error .fuelOut
  | fuel+1, prev, cur, seen =>
    match connLookup g cur prev with
    | none => .error .keyError
    | some nextCellOpt =>
      match nextCellOpt with
      | none => .ok false
      | some nxt =>
        if isSnake s nxt then .ok false
        else if nxt ∈ seen then .ok false
        else if s.isFood nxt then .ok true
        else corridorFindsFood g s fuel cur nxt (nxt :: seen)

/-- The `for connection in self.neighbours` loop of `find_next_snake_head`:
return a food neighbour on sight, skip snake neighbours, otherwise run the
straight-line lookahead and return the neighbour when it finds food. -/
def findNextLoop (g : Graph) (s : St) (tf : Nat) (self : CellId) :
    List CellId → Except Err (Option CellId)
  | [] => .ok none
  | c :: rest =>
    if s.isFood c then .ok (some c)
    else if isSnake s c then findNextLoop g s tf self rest
    else
      match corridorFindsFood g s tf self c [c, self] with
      | .error e => .error e
      | .ok true => .ok (some c)
      | .ok false => findNextLoop g s tf self rest

/-- The final fallback of `find_next_snake_head`: `choice` over the
non-snake neighbours, raising `GameOver` when there is none. -/
def fallbackChoice (g : Graph) (s : St) (self : CellId) (pick : CellId) :
    Except Err CellId :=
  let options := (neighbours g self).filter (fun x => !(isSnake s x))
  if options.isEmpty then .error .gameOver
  else if pick ∈ options then .ok pick else .error .badPick

/-- Method `Cell.find_next_snake_head`. -/
def find_next_snake_head (g : Graph) (s : St) (tf : Nat) (self : CellId)
    (pick : CellId) : Except Err CellId :=
  match findNextLoop g s tf self (neighbours g self) with
  | .error e => .error e
  | .ok (some c) => .ok c
  | .ok none =>
    match s.nextSnake self with
    | none => .error .logicError
    | some selfNext =>
      match connLookup g self selfNext with
      | none => .error .keyError
      | some forwardOpt =>
        match forwardOpt with
        | none => fallbackChoice g s self pick
        | some f =>
          if isSnake s f then fallbackChoice g s self pick
          else .ok f

/-- Method `Cell.truncate_snake`: walk tail-ward and null the link of the
cell whose successor's successor is `None` or the snake head. -/
def truncate_snake (s : St) (snakeHead : CellId) :
    Nat → CellId → Except Err St
  | 0, _ => .error .fuelOut
  | fuel+1, c =>
    match s.nextSnake c with
    | none => .error .logicError
    | some d =>
      match s.nextSnake d with
      | none => setNextSnake s c none
      | some e =>
        if e = snakeHead then setNextSnake s c none
        else truncate_snake s snakeHead fuel d

/-- Method `Cell.get_next_snake_head`: find the candidate, consume food or
truncate the tail, link the candidate back to the old head, and return the
new head together with the food flag. -/
def get_next_snake_head (g : Graph) (s : St) (tf : Nat) (self pick : CellId) :
    Except Err (St × CellId × Bool) :=
  match s.nextSnake self with
  | none => .error .logicError
  | some selfNext =>
    match find_next_snake_head g s tf self pick with
    | .error e => .error e
    | .ok cand =>
      let foundFood := s.isFood cand
      match (if foundFood then setIsFood s cand false
             else truncate_snake s self tf selfNext) with
      | .error e => .error e
      | .ok s1 =>
        match setNextSnake s1 cand (some self) with
        | .error e => .error e
        | .ok s2 => .ok (s2, cand, foundFood)

/-- Method `Board.assign_food`: `choice` over the non-snake cells (an empty
selection raises `IndexError`, caught and re-raised as `GameWon`), then set
the food flag on the chosen cell. -/
def assign_food (g : Graph) (s : St) (pick : CellId) : Except Err St :=
  let possible := g.cells.filter (fun x => !(isSnake s x))
  if possible.isEmpty then .error .gameWon
  else if pick ∈ possible then setIsFood s pick true
  else .error .badPick

/-- The extension loop of `Board.set_initial_snake`: `length` times, pick a
non-snake neighbour of the current chain end and link to it. -/
def setInitialSnakeAux (g : Graph) :
    Nat → List CellId → St → CellId → Except Err St
  | 0, _, s, _ => .ok s
  | n+1, picks, s, prev =>
    match picks with
    | [] => .error .badPick
    | p :: rest =>
      let options := (neighbours g prev).filter (fun x => !(isSnake s x))
      if options.isEmpty then .error .indexError
      else if p ∈ options then
        match setNextSnake s prev (some p) with
        | .error e => .error e
        | .ok s1 => setInitialSnakeAux g n rest s1 p
      else .error .badPick

/-- Method `Board.set_initial_snake`: pick a random head among all cells and
extend the chain `length` times. -/
def set_initial_snake (g : Graph) (length : Nat) (headPick : CellId)
    (picks : List CellId) (s : St) : Except Err (St × CellId) :=
  if g.cells.isEmpty then .error .indexError
  else if headPick ∈ g.cells then
    match setInitialSnakeAux g length picks s headPick with
    | .error e => .error e
    | .ok s1 => .ok (s1, headPick)
  else .error .badPick

/-- Method `Board.advance`: move the head; when food was found, assign the
next food cell. -/
def advance (g : Graph) (tf : Nat) (s : St) (h : CellId)
    (pickMove pickFood : CellId) : Except Err (St × CellId) :=
  match get_next_snake_head g s tf h pickMove with
  | .error e => .error e
  | .ok (s1, h1, foundFood) =>
    if foundFood then
      match assign_food g s1 pickFood with
      | .error e => .error e
      | .ok s2 => .ok (s2, h1)
    else .ok (s1, h1)

/-- One captured cell of a snapshot: identity, `is_snake`, `is_food`
(`CellHistory.__init__`). -/
abbrev Snapshot := List (CellId × Bool × Bool)

/-- Method `Board.freeze_state` building a `BoardHistory`: value-capture of
every cell's `is_snake` and `is_food`. -/
def freeze_state (g : Graph) (s : St) : Snapshot :=
  g.cells.map (fun c => (c, isSnake s c, s.isFood c))

/-- The `while True` loop of `Game.output`: advance, stop quietly on
`GameOver`/`GameWon`, otherwise snapshot and continue.  The scripted list of
picks doubles as fuel. -/
def outputLoop (g : Graph) (tf : Nat) :
    List (CellId × CellId) → St → CellId → Except Err (List Snapshot)
  | [], _, _ => .error .fuelOut
  | (pm, pf) :: rest, s, h =>
    match advance g tf s h pm pf with
    | .error .gameOver => .ok []
    | .error .gameWon => .ok []
    | .error e => .error e
    | .ok (s1, h1) =>
      match outputLoop g tf rest s1 h1 with
      | .error e => .error e
      | .ok l => .ok (freeze_state g s1 :: l)

/-- Method `Game.output`: initial snapshot followed by one snapshot per
successful `advance`. -/
def output (g : Graph) (tf : Nat) (picks : List (CellId × CellId)) (s : St)
    (h : CellId) : Except Err (List Snapshot) :=
  match outputLoop g tf picks s h with
  | .error e => .error e
  | .ok l => .ok (freeze_state g s :: l)

/-- Reference run for comparing with `output`: the list of states reached by
the successive successful `advance` calls, `some` exactly when a terminal
condition (`GameOver`/`GameWon`) ends the run within the scripted picks. -/
def runStates (g : Graph) (tf : Nat) :
    List (CellId × CellId) → St → CellId → Option (List (St × CellId))
  | [], _, _ => none
  | (pm, pf) :: rest, s, h =>
    match advance g tf s h pm pf with
    | .error .gameOver => some []
    | .error .gameWon => some []
    | .error _ => none
    | .ok (s1, h1) =>
      match runStates g tf rest s1 h1 with
      | none => none
      | some l => some ((s1, h1) :: l)

/-- Specification predicate: the cells of the list are successively linked
by `next_snake`, the last one linking to `tgt`. -/
def linksTo (s : St) : List CellId → Option CellId → Bool
  | [], _ => true
  | [c], tgt => s.nextSnake c == tgt
  | c :: d :: rest, tgt => (s.nextSnake c == some d) && linksTo s (d :: rest) tgt

/-- Specification function: the cells visited by following `next_snake`
links from `c`, cut off at `fuel` cells. -/
def chainWalk (s : St) : Nat → CellId → List CellId
  | 0, _ => []
  | fuel+1, c =>
    c :: (match s.nextSnake c with
          | none => []
          | some d => chainWalk s fuel d)

/-- Second-to-last element of `x :: l` (and `x` when `l` is empty). -/
def penultD (x : CellId) : List CellId → CellId
  | [] => x
  | [_] => x
  | y :: z :: rest => penultD y (z :: rest)

/-- Specification function: the number of snake-occupied cells of the board. -/
def snakeLength (g : Graph) (s : St) : Nat :=
  (g.cells.filter (fun c => isSnake s c)).length

/-- Whether an exceptional computation returned normally. -/
def resultOk : Except Err St → Bool
  | .ok _ => true
  | .error _ => false

/-- The states reachable by the simulation's operations: initial snake
placement followed by food assignment (the `RectBoard` constructor), then
any number of `advance` steps (the `Game.output` loop). -/
inductive Reach (g : Graph) : St → CellId → Prop where
  | init (len : Nat) (hp : CellId) (picks : List CellId) (pf : CellId)
      (s1 : St) (hd : CellId) (s2 : St)
      (h1 : set_initial_snake g len hp picks emptySt = .ok (s1, hd))
      (h2 : assign_food g s1 pf = .ok s2) : Reach g s2 hd
  | step (tf : Nat) (s : St) (h : CellId) (pm pf : CellId) (s1 : St)
      (h1 : CellId) (hr : Reach g s h)
      (ha : advance g tf s h pm pf = .ok (s1, h1)) : Reach g s1 h1

/-! ### Basic lemmas -/

theorem setNextSnake_none (s : St) (c : CellId) :
    setNextSnake s c none = .ok (updNext s c none) := by
  simp [setNextSnake]

theorem setNextSnake_not_food (s : St) (c : CellId) (v : Option CellId)
    (hf : s.isFood c = false) : setNextSnake s c v = .ok (updNext s c v) := by
  simp [setNextSnake, hf]

theorem setIsFood_not_snake (s : St) (c : CellId) (v : Bool)
    (hs : isSnake s c = false) : setIsFood s c v = .ok (updFood s c v) := by
  simp [setIsFood, hs]

theorem setIsFood_false (s : St) (c : CellId) :
    setIsFood s c false = .ok (updFood s c false) := by
  simp [setIsFood]

/-! ### The mutual-exclusion invariant and its preservation -/

/-- Specification predicate: no cell is simultaneously snake and food. -/
def MutExcl (s : St) : Prop :=
  ∀ x, ¬(isSnake s x = true ∧ s.isFood x = true)

theorem setNextSnake_pres (s : St) (c : CellId) (v : Option CellId)
    (s1 : St) (hok : setNextSnake s c v = .ok s1) (hinv : MutExcl s) :
    MutExcl s1 := by
  intro x
  rw [setNextSnake] at hok
  by_cases hcond : (s.isFood c && v.isSome) = true
  · rw [if_pos hcond] at hok
    exact absurd hok (by simp)
  · rw [if_neg hcond] at hok
    injection hok with hok
    subst hok
    by_cases hx : x = c
    · subst hx
      intro hcon
      apply hcond
      have h1 : v.isSome = true := by simpa [isSnake, updNext] using hcon.1
      have h2 : s.isFood x = true := hcon.2
      simp [h1, h2]
    · have := hinv x
      simp only [isSnake, updNext, if_neg hx]
      exact this

theorem setIsFood_pres (s : St) (c : CellId) (b : Bool)
    (s1 : St) (hok : setIsFood s c b = .ok s1) (hinv : MutExcl s) :
    MutExcl s1 := by
  intro x
  rw [setIsFood] at hok
  by_cases hcond : (isSnake s c && b) = true
  · rw [if_pos hcond] at hok
    exact absurd hok (by simp)
  · rw [if_neg hcond] at hok
    injection hok with hok
    subst hok
    by_cases hx : x = c
    · subst hx
      intro hcon
      apply hcond
      have h1 : isSnake s x = true := hcon.1
      have h2 : b = true := by simpa [updFood] using hcon.2
      simp [h1, h2]
    · have := hinv x
      simp only [isSnake, updFood, if_neg hx]
      exact this

/-! ### Claim C7: food assignment and the win condition -/

/-- C7: `assign_food` raises `GameWon` exactly when no non-snake cell
exists; with a valid pick it marks exactly that one non-snake cell as food
and changes nothing else. -/
theorem C7_assign_food (g : Graph) (s : St) (pick : CellId) :
    ((g.cells.filter (fun x => !(isSnake s x))).isEmpty = true →
       assign_food g s pick = .error .gameWon) ∧
    (assign_food g s pick = .error .gameWon →
       (g.cells.filter (fun x => !(isSnake s x))).isEmpty = true) ∧
    (pick ∈ g.cells.filter (fun x => !(isSnake s x)) →
       assign_food g s pick = .ok (updFood s pick true) ∧
       isSnake s pick = false ∧
       (updFood s pick true).isFood pick = true ∧
       (∀ x, x ≠ pick → (updFood s pick true).isFood x = s.isFood x) ∧
       (∀ x, (updFood s pick true).nextSnake x = s.nextSnake x)) := by
  refine ⟨fun h => by simp [assign_food, h], ?_, ?_⟩
  · intro h
    by_contra hne
    rw [assign_food] at h
    rw [if_neg (by simpa using hne)] at h
    by_cases hmem : pick ∈ g.cells.filter (fun x => !(isSnake s x))
    · rw [if_pos hmem] at h
      have hps : isSnake s pick = false := by
        have := (List.mem_filter.mp hmem).2
        simpa using this
      rw [setIsFood_not_snake s pick true hps] at h
      exact absurd h (by simp)
    · rw [if_neg hmem] at h
      exact absurd h (by simp)
  · intro hmem
    have hps : isSnake s pick = false := by
      have := (List.mem_filter.mp hmem).2
      simpa using this
    have hne : (g.cells.filter (fun x => !(isSnake s x))).isEmpty = false := by
      rw [List.isEmpty_eq_false]
      exact List.ne_nil_of_mem hmem
    refine ⟨?_, hps, by simp [updFood], fun x hx => by simp [updFood, hx], fun x => by simp [updFood]⟩
    rw [assign_food]
    rw [if_neg (by simp [hne])]
    rw [if_pos hmem]
    exact setIsFood_not_snake s pick true hps

/-- Concrete board for the C7 witness: cells 0 and 1, cell 0 is snake. -/
def exG7 : Graph := ⟨[0, 1], fun _ => []⟩

/-- Concrete state for the C7 witness. -/
def exS7 : St := ⟨fun c => if c = 0 then some 1 else none, fun _ => false⟩

/-- Witness for C7: picking the free cell 1 marks it as food. -/
theorem C7_witness :
    assign_food exG7 exS7 1 = .ok (updFood exS7 1 true) ∧
    isSnake exS7 1 = false ∧ (updFood exS7 1 true).isFood 1 = true :=
  have h := (C7_assign_food exG7 exS7 1).2.2 (by decide)
  ⟨h.1, h.2.1, h.2.2.1⟩

/-! ### Claim C10: the chain-end cell is not snake -/

theorem linksTo_getLast (s : St) :
    ∀ (L : List CellId) (e : CellId), linksTo s L none = true →
      L.getLast? = some e → s.nextSnake e = none := by
  intro L
  induction L with
  | nil => intro e _ hlast; exact absurd hlast (by simp)
  | cons c rest ih =>
    intro e hchain hlast
    cases rest with
    | nil =>
      simp only [List.getLast?_singleton, Option.some.injEq] at hlast
      subst hlast
      simpa [linksTo] using hchain
    | cons d rest2 =>
      rw [List.getLast?_cons_cons] at hlast
      rw [linksTo, Bool.and_eq_true] at hchain
      exact ih e hchain.2 hlast

/-- C10: the final cell of the snake chain (the cell with a null
`next_snake`, reached by following links from the head) is not snake,
hence passable for the movement search and eligible for `assign_food`
(picking it succeeds into the food-setting branch). -/
theorem C10_chain_end (g : Graph) (s : St) (L : List CellId) (e : CellId)
    (hchain : linksTo s L none = true) (hlast : L.getLast? = some e) :
    isSnake s e = false ∧ isPassable s (some e) = true ∧
    (e ∈ g.cells → assign_food g s e = setIsFood s e true) := by
  have hnone : s.nextSnake e = none := linksTo_getLast s L e hchain hlast
  have hns : isSnake s e = false := by simp [isSnake, hnone]
  refine ⟨hns, by simp [isPassable, hns], ?_⟩
  intro hcell
  have hmem : e ∈ g.cells.filter (fun x => !(isSnake s x)) :=
    List.mem_filter.mpr ⟨hcell, by simp [hns]⟩
  have hne : (g.cells.filter (fun x => !(isSnake s x))).isEmpty = false := by
    rw [List.isEmpty_eq_false]
    exact List.ne_nil_of_mem hmem
  rw [assign_food]
  rw [if_neg (by simp [hne])]
  rw [if_pos hmem]

/-- Concrete state for the C10 witness: chain 0 → 1 → 2, 2 free. -/
def exS10 : St :=
  ⟨fun c => if c = 0 then some 1 else if c = 1 then some 2 else none,
   fun _ => false⟩

/-- Concrete board for the C10 witness. -/
def exG10 : Graph := ⟨[0, 1, 2], fun _ => []⟩

/-- Witness for C10 at the chain 0 → 1 → 2 whose end cell is 2. -/
theorem C10_witness :
    isSnake exS10 2 = false ∧ isPassable exS10 (some 2) = true ∧
    (2 ∈ exG10.cells → assign_food exG10 exS10 2 = setIsFood exS10 2 true) :=
  C10_chain_end exG10 exS10 [0, 1, 2] 2 (by decide) (by decide)

/-! ### Chain lemmas and truncation -/

theorem linksTo_cons_cons (s : St) (c d : CellId) (rest : List CellId)
    (tgt : Option CellId) :
    linksTo s (c :: d :: rest) tgt = true ↔
      s.nextSnake c = some d ∧ linksTo s (d :: rest) tgt = true := by
  rw [linksTo, Bool.and_eq_true, beq_iff_eq]

theorem linksTo_single (s : St) (c : CellId) (tgt : Option CellId) :
    linksTo s [c] tgt = true ↔ s.nextSnake c = tgt := by
  rw [linksTo, beq_iff_eq]

/-- Walking `truncate_snake` along a chain whose last link is `None` or the
snake head nulls the link of the second-to-last cell of the chain. -/
theorem truncate_chain (s : St) (hd : CellId) (tgt : Option CellId)
    (htgt : tgt = none ∨ tgt = some hd) :
    ∀ (l : List CellId) (c : CellId) (fuel : Nat),
      linksTo s (c :: l) tgt = true → l ≠ [] → hd ∉ c :: l →
      l.length ≤ fuel →
      truncate_snake s hd fuel c = .ok (updNext s (penultD c l) none) := by
  intro l
  induction l with
  | nil => intro c fuel _ hne; exact absurd rfl hne
  | cons d l2 ih =>
    intro c fuel hchain _ hhd hfuel
    have hc : s.nextSnake c = some d ∧ linksTo s (d :: l2) tgt = true :=
      (linksTo_cons_cons s c d l2 tgt).mp hchain
    cases fuel with
    | zero => simp at hfuel
    | succ f =>
      cases l2 with
      | nil =>
        have hdt : s.nextSnake d = tgt := (linksTo_single s d tgt).mp hc.2
        rcases htgt with rfl | rfl
        · simp only [truncate_snake, hc.1, hdt]
          exact setNextSnake_none s c
        · simp only [truncate_snake, hc.1, hdt]
          rw [if_pos trivial]
          exact setNextSnake_none s c
      | cons e l3 =>
        have hde : s.nextSnake d = some e ∧ linksTo s (e :: l3) tgt = true :=
          (linksTo_cons_cons s d e l3 tgt).mp hc.2
        have hehd : ¬(e = hd) := by
          intro heq
          exact hhd (by simp [heq])
        simp only [truncate_snake, hc.1, hde.1, if_neg hehd]
        have hrec := ih d f hc.2 (by simp)
          (fun hmem => hhd (List.mem_cons_of_mem c hmem))
          (by simpa using Nat.le_of_succ_le_succ hfuel)
        simpa [penultD] using hrec

/-- Walking `truncate_snake` around a two-cycle between the head and its
successor terminates by nulling the head's own link. -/
theorem truncate_two_cycle (s : St) (hd c : CellId) (fuel : Nat)
    (h1 : s.nextSnake c = some hd) (h2 : s.nextSnake hd = some c)
    (hne : c ≠ hd) (hf : 2 ≤ fuel) :
    truncate_snake s hd fuel c = .ok (updNext s hd none) := by
  cases fuel with
  | zero => simp at hf
  | succ f =>
    cases f with
    | zero => simp at hf
    | succ f2 =>
      simp only [truncate_snake, h1, h2, if_neg hne]
      rw [if_pos trivial]
      exact setNextSnake_none s hd

/-! ### Claim C9: termination of the truncation walk -/

/-- C9: the tail-ward truncation walk terminates (returns normally, with
fuel to spare) on every chain shape arising in a run: a finite chain ending
in a null link, and a chain whose links loop back to the snake head. -/
theorem C9_truncate_terminates (s : St) (hd c : CellId) (l : List CellId)
    (fuel : Nat) (hfuel : l.length + 2 ≤ fuel)
    (hshape : (linksTo s (c :: l) none = true ∧ l ≠ [] ∧ hd ∉ c :: l) ∨
              (linksTo s (c :: l) (some hd) = true ∧ hd ∉ c :: l ∧
                s.nextSnake hd = some c)) :
    resultOk (truncate_snake s hd fuel c) = true := by
  rcases hshape with ⟨hchain, hne, hhd⟩ | ⟨hchain, hhd, hback⟩
  · rw [truncate_chain s hd none (Or.inl rfl) l c fuel hchain hne hhd
      (by omega)]
    rfl
  · cases l with
    | nil =>
      have hc : s.nextSnake c = some hd := (linksTo_single s c (some hd)).mp hchain
      have hcne : c ≠ hd := fun heq => hhd (by simp [heq])
      rw [truncate_two_cycle s hd c fuel hc hback hcne (by omega)]
      rfl
    | cons d l2 =>
      rw [truncate_chain s hd (some hd) (Or.inr rfl) (d :: l2) c fuel hchain
        (by simp) hhd (by simp at hfuel ⊢; omega)]
      rfl

/-- Concrete state for the C9 witness: chain 0 → 1 → 2 with free end 2. -/
def exS9 : St :=
  ⟨fun c => if c = 1 then some 2 else if c = 0 then some 1 else none,
   fun _ => false⟩

/-- Witness for C9: the truncation walk from cell 1 of the chain
0 → 1 → 2 returns normally. -/
theorem C9_witness : resultOk (truncate_snake exS9 0 9 1) = true :=
  C9_truncate_terminates exS9 0 1 [2] 9 (by decide)
    (Or.inl ⟨by decide, by decide, by decide⟩)

/-! ### Counting lemmas for the snake length -/

theorem filter_length_flip_on :
    ∀ (cl : List CellId) (f f2 : CellId → Bool) (c : CellId),
      cl.Nodup → c ∈ cl → f c = false → f2 c = true →
      (∀ x, x ≠ c → f2 x = f x) →
      (cl.filter f2).length = (cl.filter f).length + 1 := by
  intro cl
  induction cl with
  | nil => intro f f2 c _ hmem; exact absurd hmem (List.not_mem_nil c)
  | cons a tl ih =>
    intro f f2 c hnd hmem hfc hf2c hagree
    have hnd2 := List.nodup_cons.mp hnd
    rcases List.mem_cons.mp hmem with rfl | htl
    · have hcongr : tl.filter f2 = tl.filter f :=
        List.filter_congr (fun x hx => hagree x (fun heq => hnd2.1 (heq ▸ hx)))
      rw [List.filter_cons, List.filter_cons, hfc, hf2c]
      simp [hcongr]
    · have hac : a ≠ c := fun heq => hnd2.1 (heq ▸ htl)
      have ha2 : f2 a = f a := hagree a hac
      rw [List.filter_cons, List.filter_cons, ha2]
      by_cases hfa : f a = true
      · rw [if_pos hfa, if_pos hfa]
        simp only [List.length_cons]
        rw [ih f f2 c hnd2.2 htl hfc hf2c hagree]
      · rw [if_neg hfa, if_neg hfa]
        exact ih f f2 c hnd2.2 htl hfc hf2c hagree

theorem filter_length_swap (cl : List CellId) (f f2 : CellId → Bool)
    (c1 c2 : CellId) (hnd : cl.Nodup) (h1 : c1 ∈ cl) (h2 : c2 ∈ cl)
    (hne : c1 ≠ c2) (hf1 : f c1 = false) (hf2 : f c2 = true)
    (hg1 : f2 c1 = true) (hg2 : f2 c2 = false)
    (hagree : ∀ x, x ≠ c1 → x ≠ c2 → f2 x = f x) :
    (cl.filter f2).length = (cl.filter f).length := by
  have hmid := filter_length_flip_on cl (fun x => if x = c2 then false else f x)
    f c2 hnd h2 (by simp) hf2 (fun x hx => by simp [hx])
  have htop := filter_length_flip_on cl (fun x => if x = c2 then false else f x)
    f2 c1 hnd h1 (by simp [if_neg hne, hf1]) hg1
    (fun x hx => by
      by_cases hxc : x = c2
      · subst hxc; simp [hg2]
      · simp [hxc, hagree x hx hxc])
  omega

/-! ### Lemmas about the neighbour loop of the search -/

theorem findNextLoop_skip (g : Graph) (s : St) (tf : Nat) (h : CellId) :
    ∀ (pre ns : List CellId),
      (∀ a ∈ pre, s.isFood a = false ∧
        (isSnake s a = true ∨
          corridorFindsFood g s tf h a [a, h] = .ok false)) →
      findNextLoop g s tf h (pre ++ ns) = findNextLoop g s tf h ns := by
  intro pre
  induction pre with
  | nil => intro ns _; rfl
  | cons a pre2 ih =>
    intro ns hpre
    have ha := hpre a (by simp)
    have hrest := fun x hx => hpre x (List.mem_cons_of_mem a hx)
    rw [List.cons_append]
    by_cases hsnk : isSnake s a = true
    · simp only [findNextLoop, ha.1, Bool.false_eq_true, if_false, hsnk,
        if_true]
      exact ih ns hrest
    · rcases ha.2 with hs | hcorr
      · exact absurd hs hsnk
      · simp only [findNextLoop, ha.1, Bool.false_eq_true, if_false,
          if_neg hsnk, hcorr]
        exact ih ns hrest

theorem findNextLoop_ok_not_snake (g : Graph) (s : St) (tf : Nat)
    (h : CellId) (hcf : ∀ x, s.isFood x = true → isSnake s x = false) :
    ∀ (ns : List CellId) (c : CellId),
      findNextLoop g s tf h ns = .ok (some c) → isSnake s c = false := by
  intro ns
  induction ns with
  | nil => intro c hc; exact absurd hc (by simp [findNextLoop])
  | cons a rest ih =>
    intro c hc
    by_cases hfa : s.isFood a = true
    · simp only [findNextLoop, hfa, if_true] at hc
      injection hc with hc
      injection hc with hc
      subst hc
      exact hcf a hfa
    · by_cases hsa : isSnake s a = true
      · simp only [findNextLoop, if_neg hfa, hsa, if_true] at hc
        exact ih c hc
      · simp only [findNextLoop, if_neg hfa, if_neg hsa] at hc
        cases hcorr : corridorFindsFood g s tf h a [a, h] with
        | error e => rw [hcorr] at hc; exact absurd hc (by simp)
        | ok bres =>
          rw [hcorr] at hc
          cases bres with
          | true =>
            simp only at hc
            injection hc with hc
            injection hc with hc
            subst hc
            simpa using hsa
          | false => exact ih c hc

/-! ### Claim C3: adjacent food (corrected) -/

/-- C3 (amended): when some neighbour of the head is food and every earlier
neighbour in iteration order is non-food and either snake-occupied or has a
failing corridor lookahead, `find_next_snake_head` returns exactly that food
cell. -/
theorem C3_adjacent_food (g : Graph) (s : St) (tf : Nat) (h pick : CellId)
    (pre post : List CellId) (b : CellId)
    (hn : neighbours g h = pre ++ b :: post)
    (hb : s.isFood b = true)
    (hpre : ∀ a ∈ pre, s.isFood a = false ∧
      (isSnake s a = true ∨
        corridorFindsFood g s tf h a [a, h] = .ok false)) :
    find_next_snake_head g s tf h pick = .ok b := by
  have hloop : findNextLoop g s tf h (neighbours g h) = .ok (some b) := by
    rw [hn, findNextLoop_skip g s tf h pre (b :: post) hpre, findNextLoop,
      if_pos hb]
  simp [find_next_snake_head, hloop]

/-- Ring board of five cells for the C3 counterexample (neighbour order of
cell 0 is [1, 4]). -/
def rgC3 : Graph := ⟨[0, 1, 2, 3, 4], fun c =>
  if c = 0 then [(1, some 4), (4, some 1)]
  else if c = 1 then [(2, some 0), (0, some 2)]
  else if c = 2 then [(3, some 1), (1, some 3)]
  else if c = 3 then [(4, some 2), (2, some 4)]
  else if c = 4 then [(0, some 3), (3, some 0)]
  else []⟩

/-- State for the C3 counterexample: head 0 with chain link to 4, food on
cell 4 which is adjacent to the head. -/
def rsC3 : St := ⟨fun c => if c = 0 then some 4 else none, fun c => c == 4⟩

/-- Counterexample to C3 as stated: food sits on cell 4, adjacent to the
head 0, yet the search returns cell 1, whose corridor lookahead reaches the
food first in iteration order. -/
theorem C3_counterexample :
    rsC3.isFood 4 = true ∧ 4 ∈ neighbours rgC3 0 ∧
    find_next_snake_head rgC3 rsC3 9 0 0 = .ok 1 ∧ (1 : CellId) ≠ 4 :=
  ⟨rfl, by decide, rfl, by decide⟩

/-- Two-cell board for the C3 witness. -/
def wgC3 : Graph := ⟨[0, 1], fun c =>
  if c = 0 then [(1, none)] else if c = 1 then [(0, none)] else []⟩

/-- State for the C3 witness: head 0, food on its first neighbour 1. -/
def wsC3 : St := ⟨fun c => if c = 0 then some 1 else none, fun c => c == 1⟩

/-- Witness for the amended C3 on a concrete board. -/
theorem C3_witness : find_next_snake_head wgC3 wsC3 9 0 0 = .ok 1 :=
  C3_adjacent_food wgC3 wsC3 9 0 0 [] [] 1 (by decide) rfl
    (fun a ha => absurd ha (List.not_mem_nil a))

/-! ### Claim C5: corridor seeking returns the near neighbour -/

/-- C5: when no neighbour of the head is food and the first eligible
neighbour whose straight-line lookahead reaches food is `n`, the search
returns `n` itself (one step into the corridor) — and `n` is not a food
cell, in particular not the far food cell the lookahead saw. -/
theorem C5_corridor_move (g : Graph) (s : St) (tf : Nat) (h pick : CellId)
    (pre post : List CellId) (n : CellId)
    (hn : neighbours g h = pre ++ n :: post)
    (hnofood : ∀ a ∈ neighbours g h, s.isFood a = false)
    (hns : isSnake s n = false)
    (hcorr : corridorFindsFood g s tf h n [n, h] = .ok true)
    (hpre : ∀ a ∈ pre, isSnake s a = true ∨
      corridorFindsFood g s tf h a [a, h] = .ok false) :
    find_next_snake_head g s tf h pick = .ok n ∧ s.isFood n = false := by
  have hnf : s.isFood n = false :=
    hnofood n (by rw [hn]; exact List.mem_append_right pre (by simp))
  have hloop : findNextLoop g s tf h (neighbours g h) = .ok (some n) := by
    rw [hn, findNextLoop_skip g s tf h pre (n :: post)
      (fun a ha => ⟨hnofood a (by rw [hn]; exact List.mem_append_left _ ha),
        hpre a ha⟩)]
    simp only [findNextLoop, hnf, Bool.false_eq_true, if_false,
      if_neg (by simp [hns] : ¬(isSnake s n = true)), hcorr]
  exact ⟨by simp [find_next_snake_head, hloop], hnf⟩

/-- Corridor board for the C5 witness: a line 0 − 1 − 2 − 3 with food on
the far cell 3. -/
def wg5 : Graph := ⟨[0, 1, 2, 3], fun c =>
  if c = 0 then [(1, none)]
  else if c = 1 then [(2, some 0), (0, some 2)]
  else if c = 2 then [(3, some 1), (1, some 3)]
  else if c = 3 then [(2, none)]
  else []⟩

/-- State for the C5 witness. -/
def ws5 : St := ⟨fun _ => none, fun c => c == 3⟩

/-- Witness for C5: from head 0 the search walks the corridor 1 − 2 − 3,
sees the food on 3 and returns the near neighbour 1. -/
theorem C5_witness :
    find_next_snake_head wg5 ws5 9 0 0 = .ok 1 ∧ ws5.isFood 1 = false :=
  C5_corridor_move wg5 ws5 9 0 0 [] [] 1 (by decide) (by decide) rfl rfl
    (fun a ha => absurd ha (List.not_mem_nil a))

/-! ### Claim C6: the trapped head raises GameOver -/

theorem connLookup_isSome_of_mem (g : Graph) (c k : CellId)
    (h : k ∈ neighbours g c) : ∃ v, connLookup g c k = some v := by
  rw [neighbours] at h
  obtain ⟨p, hp, hpk⟩ := List.mem_map.mp h
  have hsome : ((g.conn c).find? (fun q => q.1 == k)).isSome := by
    rw [List.find?_isSome]
    exact ⟨p, hp, by simp [hpk]⟩
  obtain ⟨q, hq⟩ := Option.isSome_iff_exists.mp hsome
  exact ⟨q.2, by rw [connLookup, hq]; rfl⟩

theorem connLookup_mem (g : Graph) (c k : CellId) (v : Option CellId)
    (h : connLookup g c k = some v) : (k, v) ∈ g.conn c := by
  rw [connLookup] at h
  cases hfind : (g.conn c).find? (fun q => q.1 == k) with
  | none => rw [hfind] at h; exact absurd h (by simp)
  | some q =>
    rw [hfind] at h
    have hq2 : q.2 = v := by simpa using h
    have hqmem := List.mem_of_find?_eq_some hfind
    have hqk : q.1 = k := by simpa using List.find?_some hfind
    have hqv : q = (k, v) := by
      cases q
      simp only [Prod.mk.injEq]
      exact ⟨hqk, hq2⟩
    rw [← hqv]
    exact hqmem

theorem findNextLoop_all_snake (g : Graph) (s : St) (tf : Nat) (h : CellId)
    (ns : List CellId)
    (hns : ∀ a ∈ ns, s.isFood a = false ∧ isSnake s a = true) :
    findNextLoop g s tf h ns = .ok none := by
  have hskip := findNextLoop_skip g s tf h ns []
    (fun a ha => ⟨(hns a ha).1, Or.inl (hns a ha).2⟩)
  rw [List.append_nil] at hskip
  rw [hskip]
  rfl

/-- C6: when the head has a successor, no neighbour holds food and every
neighbour is snake-occupied, the search — and with it `advance` — raises
`GameOver`; the error propagates before any cell is mutated. -/
theorem C6_trapped (g : Graph) (s : St) (tf : Nat) (h hn pick pf : CellId)
    (hnext : s.nextSnake h = some hn)
    (hfood : ∀ a ∈ neighbours g h, s.isFood a = false)
    (hsnk : ∀ a ∈ neighbours g h, isSnake s a = true)
    (hhn : hn ∈ neighbours g h)
    (hwf : ∀ pr co, (pr, some co) ∈ g.conn h → co ∈ neighbours g h) :
    find_next_snake_head g s tf h pick = .error .gameOver ∧
    advance g tf s h pick pf = .error .gameOver := by
  have hloop := findNextLoop_all_snake g s tf h (neighbours g h)
    (fun a ha => ⟨hfood a ha, hsnk a ha⟩)
  have hopts : ((neighbours g h).filter (fun x => !(isSnake s x))) = [] := by
    rw [List.filter_eq_nil_iff]
    intro a ha
    simp [hsnk a ha]
  have hfb : fallbackChoice g s h pick = .error .gameOver := by
    simp [fallbackChoice, hopts]
  obtain ⟨v, hv⟩ := connLookup_isSome_of_mem g h hn hhn
  have hfind : find_next_snake_head g s tf h pick = .error .gameOver := by
    cases v with
    | none => simp only [find_next_snake_head, hloop, hnext, hv]; exact hfb
    | some f =>
      have hf : isSnake s f = true :=
        hsnk f (hwf hn f (connLookup_mem g h hn (some f) hv))
      simp only [find_next_snake_head, hloop, hnext, hv, hf, if_true]
      exact hfb
  refine ⟨hfind, ?_⟩
  simp only [advance, get_next_snake_head, hnext, hfind]

/-- Board for the C6 witness: head 0 whose only neighbour 1 is occupied by
the snake body. -/
def c6g : Graph := ⟨[0, 1, 2], fun c =>
  if c = 0 then [(1, none)] else if c = 1 then [(0, none)] else []⟩

/-- State for the C6 witness: chain 0 → 1 → 2. -/
def c6s : St :=
  ⟨fun c => if c = 0 then some 1 else if c = 1 then some 2 else none,
   fun _ => false⟩

/-- Witness for C6 on a concrete trapped board. -/
theorem C6_witness :
    find_next_snake_head c6g c6s 9 0 0 = .error .gameOver ∧
    advance c6g 9 c6s 0 0 0 = .error .gameOver :=
  C6_trapped c6g c6s 9 0 1 0 0 rfl (by decide) (by decide) (by decide)
    (by intro pr co hmem; simp [c6g] at hmem)

/-! ### The search result is never a snake cell -/

theorem fallbackChoice_ok_not_snake (g : Graph) (s : St) (self pick cand : CellId)
    (hok : fallbackChoice g s self pick = .ok cand) : isSnake s cand = false := by
  simp only [fallbackChoice] at hok
  by_cases hemp : ((neighbours g self).filter (fun x => !(isSnake s x))).isEmpty = true
  · rw [if_pos hemp] at hok
    exact absurd hok (by simp)
  · rw [if_neg hemp] at hok
    by_cases hm : pick ∈ (neighbours g self).filter (fun x => !(isSnake s x))
    · rw [if_pos hm] at hok
      have hpc : pick = cand := by
        have h2 : (Except.ok pick : Except Err CellId) = .ok cand := hok
        injection h2
      subst hpc
      have := (List.mem_filter.mp hm).2
      simpa using this
    · rw [if_neg hm] at hok
      exact absurd hok (by simp)

theorem find_next_ok_not_snake (g : Graph) (s : St) (tf : Nat)
    (h pick cand : CellId)
    (hcf : ∀ x, s.isFood x = true → isSnake s x = false)
    (hok : find_next_snake_head g s tf h pick = .ok cand) :
    isSnake s cand = false := by
  cases hloop : findNextLoop g s tf h (neighbours g h) with
  | error e =>
    simp only [find_next_snake_head, hloop] at hok
    exact absurd hok (by simp)
  | ok oc =>
    cases oc with
    | some c0 =>
      simp only [find_next_snake_head, hloop] at hok
      have hc0 : c0 = cand := by
        have h2 : (Except.ok c0 : Except Err CellId) = .ok cand := hok
        injection h2
      subst hc0
      exact findNextLoop_ok_not_snake g s tf h hcf (neighbours g h) c0 hloop
    | none =>
      cases hnx : s.nextSnake h with
      | none =>
        simp only [find_next_snake_head, hloop, hnx] at hok
        exact absurd hok (by simp)
      | some hn =>
        cases hcl : connLookup g h hn with
        | none =>
          simp only [find_next_snake_head, hloop, hnx, hcl] at hok
          exact absurd hok (by simp)
        | some fw =>
          cases fw with
          | none =>
            simp only [find_next_snake_head, hloop, hnx, hcl] at hok
            exact fallbackChoice_ok_not_snake g s h pick cand hok
          | some f =>
            by_cases hf : isSnake s f = true
            · simp only [find_next_snake_head, hloop, hnx, hcl, hf,
                if_true] at hok
              exact fallbackChoice_ok_not_snake g s h pick cand hok
            · simp only [find_next_snake_head, hloop, hnx, hcl,
                if_neg hf] at hok
              have h2 : f = cand := by
                have h3 : (Except.ok f : Except Err CellId) = .ok cand := hok
                injection h3
              subst h2
              simpa using hf

/-! ### Second-to-last cell of a chain -/

theorem penultD_mem : ∀ (l : List CellId) (x : CellId), penultD x l ∈ x :: l := by
  intro l
  induction l with
  | nil => intro x; simp [penultD]
  | cons y l2 ih =>
    intro x
    cases l2 with
    | nil => simp [penultD]
    | cons z rest =>
      simp only [penultD]
      exact List.mem_cons_of_mem x (ih y)

theorem penultD_isSnake (s : St) (tgt : Option CellId) :
    ∀ (l : List CellId) (c : CellId), linksTo s (c :: l) tgt = true →
      l ≠ [] → isSnake s (penultD c l) = true := by
  intro l
  induction l with
  | nil => intro c _ hne; exact absurd rfl hne
  | cons d l2 ih =>
    intro c hchain _
    have hc := (linksTo_cons_cons s c d l2 tgt).mp hchain
    cases l2 with
    | nil => simp [penultD, isSnake, hc.1]
    | cons e rest =>
      simp only [penultD]
      exact ih d hc.2 (by simp)

/-! ### Claim C1: growth on food, truncation otherwise (corrected) -/

/-- C1 (amended): for a head `h` whose chain is `h :: c :: l` and a
candidate returned by the search, a move onto food performs no truncation
and grows the snake by one; a move onto a non-food cell with a chain of at
least two links truncates one cell at the tail, keeping the snake length
unchanged; with a chain of length one (the head's successor is the chain
end) the non-food move raises a `LogicError` instead of being a no-op. -/
theorem C1_growth_and_truncation (g : Graph) (s : St) (tf : Nat)
    (h c : CellId) (l : List CellId) (cand pick : CellId)
    (hchain : linksTo s (h :: c :: l) none = true)
    (hnd : (h :: c :: l).Nodup)
    (hcells : ∀ x ∈ h :: c :: l, x ∈ g.cells)
    (hcand : cand ∈ g.cells)
    (hgnd : g.cells.Nodup)
    (hcf : ∀ x, s.isFood x = true → isSnake s x = false)
    (hfind : find_next_snake_head g s tf h pick = .ok cand)
    (hfuel : l.length + 1 ≤ tf) :
    (s.isFood cand = true →
      get_next_snake_head g s tf h pick =
        .ok (updNext (updFood s cand false) cand (some h), cand, true) ∧
      snakeLength g (updNext (updFood s cand false) cand (some h)) =
        snakeLength g s + 1) ∧
    (s.isFood cand = false → l = [] →
      get_next_snake_head g s tf h pick = .error .logicError) ∧
    (s.isFood cand = false → l ≠ [] →
      get_next_snake_head g s tf h pick =
        .ok (updNext (updNext s (penultD c l) none) cand (some h), cand,
          false) ∧
      snakeLength g (updNext (updNext s (penultD c l) none) cand (some h)) =
        snakeLength g s) := by
  have hh : s.nextSnake h = some c := ((linksTo_cons_cons s h c l none).mp hchain).1
  have htail : linksTo s (c :: l) none = true :=
    ((linksTo_cons_cons s h c l none).mp hchain).2
  have hcsnake : isSnake s cand = false :=
    find_next_ok_not_snake g s tf h pick cand hcf hfind
  refine ⟨?_, ?_, ?_⟩
  · intro hfood
    constructor
    · have h1 : setIsFood s cand false = .ok (updFood s cand false) :=
        setIsFood_false s cand
      have h2 : setNextSnake (updFood s cand false) cand (some h) =
          .ok (updNext (updFood s cand false) cand (some h)) :=
        setNextSnake_not_food _ _ _ (by simp [updFood])
      simp [get_next_snake_head, hh, hfind, hfood, h1, h2]
    · have hcount := filter_length_flip_on g.cells (fun x => isSnake s x)
        (fun x => isSnake (updNext (updFood s cand false) cand (some h)) x)
        cand hgnd hcand hcsnake (by simp [isSnake, updNext])
        (fun x hx => by simp [isSnake, updNext, updFood, hx])
      exact hcount
  · intro hfood hlnil
    subst hlnil
    obtain ⟨f2, rfl⟩ : ∃ f2, tf = f2 + 1 := ⟨tf - 1, by omega⟩
    have hcnone : s.nextSnake c = none := (linksTo_single s c none).mp htail
    have htrunc : truncate_snake s h (f2 + 1) c = .error .logicError := by
      simp only [truncate_snake, hcnone]
    simp [get_next_snake_head, hh, hfind, hfood, htrunc]
  · intro hfood hlne
    have hnotin : h ∉ c :: l := (List.nodup_cons.mp hnd).1
    have htrunc := truncate_chain s h none (Or.inl rfl) l c tf htail hlne
      hnotin (by omega)
    have hset : setNextSnake (updNext s (penultD c l) none) cand (some h) =
        .ok (updNext (updNext s (penultD c l) none) cand (some h)) :=
      setNextSnake_not_food _ _ _ hfood
    constructor
    · simp [get_next_snake_head, hh, hfind, hfood, htrunc, hset]
    · have hp_snake : isSnake s (penultD c l) = true :=
        penultD_isSnake s none l c htail hlne
      have hp_cells : penultD c l ∈ g.cells :=
        hcells (penultD c l) (List.mem_cons_of_mem h (penultD_mem l c))
      have hpc : cand ≠ penultD c l := by
        intro heq
        rw [heq] at hcsnake
        rw [hcsnake] at hp_snake
        exact absurd hp_snake (by simp)
      have hswap := filter_length_swap g.cells (fun x => isSnake s x)
        (fun x =>
          isSnake (updNext (updNext s (penultD c l) none) cand (some h)) x)
        cand (penultD c l) hgnd hcand hp_cells hpc hcsnake hp_snake
        (by simp [isSnake, updNext])
        (by simp [isSnake, updNext, Ne.symm hpc])
        (fun x hx1 hx2 => by simp [isSnake, updNext, hx1, hx2])
      exact hswap

/-- Board for the C1 counterexample: cell 0 connected to 1 and 2 with a
continuation from 1 through 0 to 2. -/
def cgX : Graph := ⟨[0, 1, 2], fun c =>
  if c = 0 then [(1, some 2), (2, some 1)]
  else if c = 1 then [(0, none)]
  else if c = 2 then [(0, none)]
  else []⟩

/-- State for the C1 counterexample: chain 0 → 1 of snake length one, no
food anywhere. -/
def csX : St := ⟨fun c => if c = 0 then some 1 else none, fun _ => false⟩

/-- Counterexample to C1 as stated: on a chain of snake length one the
non-food move raises a `LogicError` instead of truncating as a no-op. -/
theorem C1_counterexample :
    linksTo csX [0, 1] none = true ∧ isSnake csX 0 = true ∧
    isSnake csX 1 = false ∧
    get_next_snake_head cgX csX 9 0 0 = .error .logicError :=
  ⟨by decide, rfl, rfl, rfl⟩

/-- Board for the C1 witness. -/
def cg1 : Graph := ⟨[0, 1, 2, 3], fun c =>
  if c = 0 then [(1, none), (3, none)]
  else if c = 1 then [(0, none)]
  else if c = 3 then [(0, none)]
  else []⟩

/-- State for the C1 witness: chain 0 → 1 → 2, no food. -/
def cs1 : St :=
  ⟨fun c => if c = 0 then some 1 else if c = 1 then some 2 else none,
   fun _ => false⟩

/-- Witness for the amended C1: the non-food move of the two-link chain
0 → 1 → 2 onto cell 3 truncates one tail cell and keeps the snake length. -/
theorem C1_witness :
    get_next_snake_head cg1 cs1 9 0 3 =
      .ok (updNext (updNext cs1 1 none) 3 (some 0), 3, false) ∧
    snakeLength cg1 (updNext (updNext cs1 1 none) 3 (some 0)) =
      snakeLength cg1 cs1 :=
  (C1_growth_and_truncation cg1 cs1 9 0 1 [2] 3 3 (by decide) (by decide)
    (by decide) (by decide) (by decide) (fun x hx => by simp [cs1] at hx)
    rfl (by decide)).2.2 rfl (by decide)

/-! ### Claim C4: acyclicity of the chain (corrected) -/

theorem mem_of_getLast_opt (l : List CellId) (a : CellId)
    (h : l.getLast? = some a) : a ∈ l := by
  have hne : l ≠ [] := by intro heq; subst heq; simp at h
  rw [List.getLast?_eq_getLast l hne] at h
  injection h with h
  rw [← h]
  exact List.getLast_mem hne

theorem linksTo_updFood (s : St) (c : CellId) (v : Bool) :
    ∀ (L : List CellId) (tgt : Option CellId),
      linksTo (updFood s c v) L tgt = linksTo s L tgt := by
  intro L
  induction L with
  | nil => intro tgt; rfl
  | cons a rest ih =>
    intro tgt
    cases rest with
    | nil => simp only [linksTo, updFood]
    | cons b rest2 =>
      show ((updFood s c v).nextSnake a == some b &&
          linksTo (updFood s c v) (b :: rest2) tgt) =
        (s.nextSnake a == some b && linksTo s (b :: rest2) tgt)
      rw [ih tgt]
      rfl

theorem linksTo_snoc_extend (s : St) (p : CellId) :
    ∀ (L : List CellId) (prev : CellId), linksTo s L none = true →
      L.getLast? = some prev → prev ∉ L.dropLast →
      s.nextSnake p = none → p ≠ prev →
      linksTo (updNext s prev (some p)) (L ++ [p]) none = true := by
  intro L
  induction L with
  | nil => intro prev _ hlast; exact absurd hlast (by simp)
  | cons a rest ih =>
    intro prev hchain hlast hdrop hpnone hpprev
    cases rest with
    | nil =>
      have ha : a = prev := by simpa using hlast
      subst ha
      show linksTo (updNext s a (some p)) [a, p] none = true
      rw [linksTo_cons_cons]
      constructor
      · simp [updNext]
      · rw [linksTo_single]
        simp [updNext, if_neg hpprev, hpnone]
    | cons b rest2 =>
      have hc := (linksTo_cons_cons s a b rest2 none).mp hchain
      have hlast2 : (b :: rest2).getLast? = some prev := by
        rw [← List.getLast?_cons_cons (a := a)]
        exact hlast
      have hdrop2 : prev ∉ (b :: rest2).dropLast := by
        intro hmem
        exact hdrop (by simp [List.dropLast, hmem])
      have haprev : a ≠ prev := by
        intro heq
        exact hdrop (by simp [List.dropLast, heq])
      have htail := ih prev hc.2 hlast2 hdrop2 hpnone hpprev
      rw [List.cons_append] at htail
      show linksTo (updNext s prev (some p)) ((a :: b :: rest2) ++ [p]) none
        = true
      rw [List.cons_append, List.cons_append, linksTo_cons_cons]
      constructor
      · simp [updNext, if_neg haprev, hc.1]
      · exact htail

/-- Invariant maintained while the initial snake is laid out: the state
consists exactly of the chain `L` (with its last cell as the free chain
end), with no food anywhere. -/
def InitInv (s : St) (L : List CellId) : Prop :=
  linksTo s L none = true ∧ L.Nodup ∧
  (∀ x, isSnake s x = true ↔ x ∈ L.dropLast) ∧
  (∀ x, s.isFood x = false)

theorem setInitialSnakeAux_chain (g : Graph)
    (hsl : ∀ cc, cc ∉ neighbours g cc) :
    ∀ (n : Nat) (picks : List CellId) (s : St) (prev : CellId) (s2 : St)
      (L : List CellId),
      setInitialSnakeAux g n picks s prev = .ok s2 →
      InitInv s L → L.getLast? = some prev →
      ∃ L2, InitInv s2 L2 ∧ L2.head? = L.head? := by
  intro n
  induction n with
  | zero =>
    intro picks s prev s2 L hok hinv _
    have hs : s = s2 := by
      have h2 : (Except.ok s : Except Err St) = .ok s2 := hok
      injection h2
    subst hs
    exact ⟨L, hinv, rfl⟩
  | succ n2 ih =>
    intro picks s prev s2 L hok hinv hlast
    cases picks with
    | nil => exact absurd hok (by simp [setInitialSnakeAux])
    | cons p rest =>
      simp only [setInitialSnakeAux] at hok
      by_cases hemp :
          ((neighbours g prev).filter fun x => !(isSnake s x)).isEmpty = true
      · rw [if_pos hemp] at hok
        exact absurd hok (by simp)
      · rw [if_neg hemp] at hok
        by_cases hm : p ∈ (neighbours g prev).filter fun x => !(isSnake s x)
        · rw [if_pos hm] at hok
          obtain ⟨hchain, hnd, hsnake, hfood⟩ := hinv
          rw [setNextSnake_not_food s prev (some p) (hfood prev)] at hok
          have hok2 : setInitialSnakeAux g n2 rest
              (updNext s prev (some p)) p = .ok s2 := hok
          have hmf := List.mem_filter.mp hm
          have hpns : isSnake s p = false := by simpa using hmf.2
          have hpnone : s.nextSnake p = none := by
            cases hnx : s.nextSnake p with
            | none => rfl
            | some q => rw [isSnake, hnx] at hpns; exact absurd hpns (by simp)
          have hpprev : p ≠ prev := fun heq => hsl prev (heq ▸ hmf.1)
          have hLne : L ≠ [] := by
            intro heq; subst heq; simp at hlast
          have hprevlast : L.getLast hLne = prev := by
            have := List.getLast?_eq_getLast L hLne
            rw [this] at hlast
            injection hlast
          have hprev_not_drop : prev ∉ L.dropLast := by
            intro hmem
            exact absurd ((hsnake prev).mpr hmem)
              (by
                have : s.nextSnake prev = none := by
                  have h3 := (linksTo_getLast s L prev · hlast)
                  exact h3 hchain
                simp [isSnake, this])
          have hp_notin : p ∉ L := by
            intro hmem
            have hsplit : p ∈ L.dropLast ∨ p = L.getLast hLne := by
              have heq := List.dropLast_append_getLast hLne
              rw [← heq] at hmem
              rcases List.mem_append.mp hmem with h4 | h4
              · exact Or.inl h4
              · exact Or.inr (by simpa using h4)
            rcases hsplit with h4 | h4
            · rw [← hsnake p] at h4
              rw [h4] at hpns
              exact absurd hpns (by simp)
            · rw [hprevlast] at h4
              exact hpprev h4
          have hinvNew : InitInv (updNext s prev (some p)) (L ++ [p]) := by
            refine ⟨linksTo_snoc_extend s p L prev hchain hlast
              hprev_not_drop hpnone hpprev, ?_, ?_, ?_⟩
            · simp [List.nodup_append, hnd, hp_notin]
            · intro x
              rw [List.dropLast_concat]
              by_cases hx : x = prev
              · subst hx
                constructor
                · intro _
                  rw [← hprevlast]
                  exact List.getLast_mem hLne
                · intro _
                  simp [isSnake, updNext]
              · have hxs : isSnake (updNext s prev (some p)) x = isSnake s x := by
                  simp [isSnake, updNext, hx]
                rw [hxs, hsnake x]
                constructor
                · intro h4; exact (List.dropLast_sublist L).mem h4
                · intro h4
                  have heq := List.dropLast_append_getLast hLne
                  rw [← heq] at h4
                  rcases List.mem_append.mp h4 with h5 | h5
                  · exact h5
                  · exfalso
                    apply hx
                    rw [← hprevlast]
                    simpa using h5
            · intro x
              exact hfood x
          have hlast2 : (L ++ [p]).getLast? = some p := List.getLast?_concat L
          obtain ⟨L2, hinv2, hhead2⟩ :=
            ih rest (updNext s prev (some p)) p s2 (L ++ [p]) hok2 hinvNew
              hlast2
          refine ⟨L2, hinv2, ?_⟩
          rw [hhead2]
          cases L with
          | nil => exact absurd rfl hLne
          | cons a L3 => rfl
        · rw [if_neg hm] at hok
          exact absurd hok (by simp)

theorem chainWalk_eq_take (s : St) :
    ∀ (n : Nat) (l : List CellId) (c : CellId),
      linksTo s (c :: l) none = true →
      chainWalk s n c = (c :: l).take n := by
  intro n
  induction n with
  | zero => intro l c _; rfl
  | succ n2 ih =>
    intro l c hchain
    cases l with
    | nil =>
      have hc : s.nextSnake c = none := (linksTo_single s c none).mp hchain
      simp [chainWalk, hc]
    | cons d l2 =>
      have hc := (linksTo_cons_cons s c d l2 none).mp hchain
      rw [List.take_succ_cons]
      simp only [chainWalk, hc.1]
      rw [ih l2 d hc.2]

/-- C4 (amended): the snake chain is acyclic in the state produced by
initial snake placement followed by food assignment (on a graph without
self-loops): following `next_snake` from the head never visits a cell
twice.  This is not preserved by every `advance`: an advance that consumes
food on the chain-end cell produces a reachable state whose chain loops
back through the head (see the counterexample). -/
theorem C4_init_chain_acyclic (g : Graph)
    (hsl : ∀ cc, cc ∉ neighbours g cc)
    (len : Nat) (hp : CellId) (picks : List CellId) (pf : CellId)
    (s1 : St) (hd : CellId) (s2 : St)
    (hinit : set_initial_snake g len hp picks emptySt = .ok (s1, hd))
    (hfood : assign_food g s1 pf = .ok s2) :
    ∀ n, (chainWalk s2 n hd).Nodup := by
  rw [set_initial_snake] at hinit
  by_cases hemp : g.cells.isEmpty = true
  · rw [if_pos hemp] at hinit
    exact absurd hinit (by simp)
  · rw [if_neg hemp] at hinit
    by_cases hm : hp ∈ g.cells
    · rw [if_pos hm] at hinit
      cases haux : setInitialSnakeAux g len picks emptySt hp with
      | error e => rw [haux] at hinit; exact absurd hinit (by simp)
      | ok s1b =>
        rw [haux] at hinit
        have hpair : s1b = s1 ∧ hp = hd := by
          have h2 : (Except.ok (s1b, hp) : Except Err (St × CellId)) =
              .ok (s1, hd) := hinit
          injection h2 with h3
          exact ⟨congrArg Prod.fst h3, congrArg Prod.snd h3⟩
        have hbase : InitInv emptySt [hp] :=
          ⟨rfl, by simp, fun x => by simp [emptySt, isSnake], fun x => rfl⟩
        obtain ⟨L2, hinv2, hhead2⟩ := setInitialSnakeAux_chain g hsl len
          picks emptySt hp s1b [hp] haux hbase rfl
        -- food assignment keeps the links
        rw [← hpair.1] at hfood
        rw [assign_food] at hfood
        by_cases hemp2 :
            (g.cells.filter (fun x => !(isSnake s1b x))).isEmpty = true
        · rw [if_pos hemp2] at hfood
          exact absurd hfood (by simp)
        · rw [if_neg hemp2] at hfood
          by_cases hm2 : pf ∈ g.cells.filter (fun x => !(isSnake s1b x))
          · rw [if_pos hm2] at hfood
            have hpfns : isSnake s1b pf = false := by
              simpa using (List.mem_filter.mp hm2).2
            rw [setIsFood_not_snake s1b pf true hpfns] at hfood
            have hs2 : updFood s1b pf true = s2 := by
              have h2 : (Except.ok (updFood s1b pf true) : Except Err St) =
                  .ok s2 := hfood
              injection h2
            cases L2 with
            | nil => exact absurd hhead2 (by simp)
            | cons a L3 =>
              have hahd : a = hd := by
                rw [← hpair.2]
                simpa using hhead2
              intro n
              have hlinks2 : linksTo (updFood s1b pf true) (a :: L3) none
                  = true := by
                rw [linksTo_updFood]
                exact hinv2.1
              rw [← hs2, ← hahd]
              rw [chainWalk_eq_take (updFood s1b pf true) n L3 a hlinks2]
              exact List.Nodup.sublist (List.take_sublist n (a :: L3))
                hinv2.2.1
          · rw [if_neg hm2] at hfood
            exact absurd hfood (by simp)
    · rw [if_neg hm] at hinit
      exact absurd hinit (by simp)

/-- Board for the C4 counterexample: a path 0 − 1 − 2. -/
def c4g : Graph := ⟨[0, 1, 2], fun c =>
  if c = 0 then [(1, none)]
  else if c = 1 then [(0, some 2), (2, some 0)]
  else if c = 2 then [(1, none)]
  else []⟩

/-- State after placing the initial snake of length one at head 0. -/
def c4s1 : St :=
  match set_initial_snake c4g 1 0 [1] emptySt with
  | .ok p => p.1
  | .error _ => emptySt

/-- State after assigning food onto cell 1 — the chain-end cell. -/
def c4s2 : St :=
  match assign_food c4g c4s1 1 with
  | .ok t => t
  | .error _ => emptySt

/-- State after one `advance`: the head eats the food on its own chain end. -/
def c4s3 : St :=
  match advance c4g 9 c4s2 0 0 2 with
  | .ok p => p.1
  | .error _ => emptySt

/-- Counterexample to C4 as stated: the state `c4s3` is reachable by the
simulation's operations, yet following `next_snake` from its head 1 visits
cell 1 twice (the chain is the cycle 1 → 0 → 1). -/
theorem C4_counterexample :
    Reach c4g c4s3 1 ∧ ¬ (chainWalk c4s3 3 1).Nodup :=
  ⟨Reach.step 9 c4s2 0 0 2 c4s3 1
      (Reach.init 1 0 [1] 1 c4s1 0 c4s2 rfl rfl) rfl,
    by decide⟩

/-- Witness for the amended C4: on the concrete path board the constructed
state has an acyclic chain from the head. -/
theorem C4_witness : (chainWalk c4s2 5 0).Nodup :=
  C4_init_chain_acyclic c4g
    (by
      intro cc
      by_cases h0 : cc = 0
      · subst h0; decide
      · by_cases h1 : cc = 1
        · subst h1; decide
        · by_cases h2 : cc = 2
          · subst h2; decide
          · simp [c4g, neighbours, h0, h1, h2])
    1 0 [1] 1 c4s1 0 c4s2 rfl rfl 5

/-! ### Claim C8: the driver's snapshot list -/

theorem outputLoop_runStates (g : Graph) (tf : Nat) :
    ∀ (picks : List (CellId × CellId)) (s : St) (h : CellId)
      (l2 : List Snapshot),
      outputLoop g tf picks s h = .ok l2 ↔
        ∃ sts, runStates g tf picks s h = some sts ∧
          l2 = sts.map (fun q => freeze_state g q.1) := by
  intro picks
  induction picks with
  | nil =>
    intro s h l2
    constructor
    · intro hok
      exact absurd hok (by simp [outputLoop])
    · rintro ⟨sts, hsts, _⟩
      exact absurd hsts (by simp [runStates])
  | cons pq rest ih =>
    obtain ⟨pm, pf⟩ := pq
    intro s h l2
    cases hadv : advance g tf s h pm pf with
    | error e =>
      cases e with
      | gameOver =>
        simp only [outputLoop, runStates, hadv]
        constructor
        · intro hok
          have h2 : ([] : List Snapshot) = l2 := by
            have h3 : (Except.ok ([] : List Snapshot) :
                Except Err (List Snapshot)) = .ok l2 := hok
            injection h3
          exact ⟨[], rfl, by rw [← h2]; rfl⟩
        · rintro ⟨sts, hsts, hmap⟩
          have h2 : ([] : List (St × CellId)) = sts := by
            have h3 : (Option.some ([] : List (St × CellId))) = some sts :=
              hsts
            injection h3
          rw [hmap, ← h2]
          rfl
      | gameWon =>
        simp only [outputLoop, runStates, hadv]
        constructor
        · intro hok
          have h2 : ([] : List Snapshot) = l2 := by
            have h3 : (Except.ok ([] : List Snapshot) :
                Except Err (List Snapshot)) = .ok l2 := hok
            injection h3
          exact ⟨[], rfl, by rw [← h2]; rfl⟩
        · rintro ⟨sts, hsts, hmap⟩
          have h2 : ([] : List (St × CellId)) = sts := by
            have h3 : (Option.some ([] : List (St × CellId))) = some sts :=
              hsts
            injection h3
          rw [hmap, ← h2]
          rfl
      | logicError =>
        simp only [outputLoop, runStates, hadv]
        constructor
        · intro hok; exact absurd hok (by simp)
        · rintro ⟨sts, hsts, _⟩; exact absurd hsts (by simp)
      | indexError =>
        simp only [outputLoop, runStates, hadv]
        constructor
        · intro hok; exact absurd hok (by simp)
        · rintro ⟨sts, hsts, _⟩; exact absurd hsts (by simp)
      | keyError =>
        simp only [outputLoop, runStates, hadv]
        constructor
        · intro hok; exact absurd hok (by simp)
        · rintro ⟨sts, hsts, _⟩; exact absurd hsts (by simp)
      | badPick =>
        simp only [outputLoop, runStates, hadv]
        constructor
        · intro hok; exact absurd hok (by simp)
        · rintro ⟨sts, hsts, _⟩; exact absurd hsts (by simp)
      | fuelOut =>
        simp only [outputLoop, runStates, hadv]
        constructor
        · intro hok; exact absurd hok (by simp)
        · rintro ⟨sts, hsts, _⟩; exact absurd hsts (by simp)
    | ok p =>
      obtain ⟨s1, h1⟩ := p
      constructor
      · intro hok
        simp only [outputLoop, hadv] at hok
        cases hrest : outputLoop g tf rest s1 h1 with
        | error e2 =>
          rw [hrest] at hok
          exact absurd hok (by simp)
        | ok lr =>
          rw [hrest] at hok
          have hl2 : freeze_state g s1 :: lr = l2 := by
            have h3 : (Except.ok (freeze_state g s1 :: lr) :
                Except Err (List Snapshot)) = .ok l2 := hok
            injection h3
          obtain ⟨sts, hsts, hmap⟩ := (ih s1 h1 lr).mp hrest
          refine ⟨(s1, h1) :: sts, ?_, ?_⟩
          · simp only [runStates, hadv, hsts]
          · rw [← hl2, hmap]
            rfl
      · rintro ⟨sts, hsts, hmap⟩
        simp only [runStates, hadv] at hsts
        cases hrest : runStates g tf rest s1 h1 with
        | none =>
          rw [hrest] at hsts
          exact absurd hsts (by simp)
        | some sts2 =>
          rw [hrest] at hsts
          have hsts2 : (s1, h1) :: sts2 = sts := by
            have h3 : (Option.some ((s1, h1) :: sts2)) = some sts := hsts
            injection h3
          have hlr := (ih s1 h1
            (sts2.map (fun q => freeze_state g q.1))).mpr ⟨sts2, hrest, rfl⟩
          simp only [outputLoop, hadv, hlr]
          rw [hmap, ← hsts2]
          rfl

/-- C8: the driver returns normally exactly when a terminal condition
(`GameOver`/`GameWon`) ends the run, and its output is then the snapshot of
the state before any movement followed by exactly one snapshot per
successful `advance`; the terminal step contributes no snapshot. -/
theorem C8_output_snapshots (g : Graph) (tf : Nat)
    (picks : List (CellId × CellId)) (s : St) (h : CellId)
    (l : List Snapshot) :
    output g tf picks s h = .ok l ↔
      ∃ sts, runStates g tf picks s h = some sts ∧
        l = freeze_state g s :: sts.map (fun q => freeze_state g q.1) := by
  rw [output]
  cases hloop : outputLoop g tf picks s h with
  | error e =>
    constructor
    · intro hok
      exact absurd hok (by simp)
    · rintro ⟨sts, hsts, _⟩
      have h2 := (outputLoop_runStates g tf picks s h
        (sts.map (fun q => freeze_state g q.1))).mpr ⟨sts, hsts, rfl⟩
      rw [hloop] at h2
      exact absurd h2 (by simp)
  | ok l0 =>
    constructor
    · intro hok
      have hl : freeze_state g s :: l0 = l := by
        have h3 : (Except.ok (freeze_state g s :: l0) :
            Except Err (List Snapshot)) = .ok l := hok
        injection h3
      obtain ⟨sts, hsts, hmap⟩ := (outputLoop_runStates g tf picks s h
        l0).mp hloop
      exact ⟨sts, hsts, by rw [← hl, hmap]⟩
    · rintro ⟨sts, hsts, hl⟩
      obtain ⟨sts2, hsts2, hmap2⟩ := (outputLoop_runStates g tf picks s h
        l0).mp hloop
      rw [hsts2] at hsts
      have h4 : sts2 = sts := by injection hsts
      subst h4
      rw [hl, hmap2]

/-- Two-cell board for the C8 witness. -/
def c8g : Graph := ⟨[0, 1], fun c =>
  if c = 0 then [(1, none)] else if c = 1 then [(0, none)] else []⟩

/-- State for the C8 witness: snake of length one at 0 and food on 1; the
first advance eats the food and then wins (no free cell remains). -/
def c8s : St := ⟨fun c => if c = 0 then some 1 else none, fun c => c == 1⟩

/-- Witness for C8: the run ends on the first advance (a win), so the
output holds exactly the single initial snapshot. -/
theorem C8_witness :
    output c8g 9 [(0, 0)] c8s 0 = .ok [freeze_state c8g c8s] :=
  (C8_output_snapshots c8g 9 [(0, 0)] c8s 0 [freeze_state c8g c8s]).mpr
    ⟨[], rfl, rfl⟩

/-! ### Claim C2: mutual exclusion at every point of a run -/

theorem truncate_pres (hd : CellId) :
    ∀ (fuel : Nat) (s : St) (c : CellId) (s1 : St),
      truncate_snake s hd fuel c = .ok s1 → MutExcl s → MutExcl s1 := by
  intro fuel
  induction fuel with
  | zero =>
    intro s c s1 hok
    exact absurd hok (by simp [truncate_snake])
  | succ f ih =>
    intro s c s1 hok hinv
    cases hc : s.nextSnake c with
    | none =>
      simp only [truncate_snake, hc] at hok
      exact absurd hok (by simp)
    | some d =>
      cases hdx : s.nextSnake d with
      | none =>
        simp only [truncate_snake, hc, hdx] at hok
        exact setNextSnake_pres s c none s1 hok hinv
      | some e =>
        by_cases he : e = hd
        · simp only [truncate_snake, hc, hdx, if_pos he] at hok
          exact setNextSnake_pres s c none s1 hok hinv
        · simp only [truncate_snake, hc, hdx, if_neg he] at hok
          exact ih s d s1 hok hinv

theorem getNext_pres (g : Graph) (tf : Nat) (h pick : CellId) (s : St)
    (s1 : St) (h1 : CellId) (b : Bool)
    (hok : get_next_snake_head g s tf h pick = .ok (s1, h1, b))
    (hinv : MutExcl s) : MutExcl s1 := by
  cases hnx : s.nextSnake h with
  | none =>
    simp only [get_next_snake_head, hnx] at hok
    exact absurd hok (by simp)
  | some hn =>
    cases hfind : find_next_snake_head g s tf h pick with
    | error e =>
      simp only [get_next_snake_head, hnx, hfind] at hok
      exact absurd hok (by simp)
    | ok cand =>
      simp only [get_next_snake_head, hnx, hfind] at hok
      by_cases hfd : s.isFood cand = true
      · rw [if_pos hfd] at hok
        cases hset : setIsFood s cand false with
        | error e =>
          simp only [hset] at hok
          exact absurd hok (by simp)
        | ok sA =>
          simp only [hset] at hok
          cases hset2 : setNextSnake sA cand (some h) with
          | error e =>
            simp only [hset2] at hok
            exact absurd hok (by simp)
          | ok sB =>
            simp only [hset2] at hok
            have hsB : sB = s1 := by
              have h3 : (Except.ok (sB, cand, s.isFood cand) :
                  Except Err (St × CellId × Bool)) = .ok (s1, h1, b) := hok
              injection h3 with h4
              exact congrArg Prod.fst h4
            rw [← hsB]
            exact setNextSnake_pres sA cand (some h) sB hset2
              (setIsFood_pres s cand false sA hset hinv)
      · rw [if_neg hfd] at hok
        cases htr : truncate_snake s h tf hn with
        | error e =>
          simp only [htr] at hok
          exact absurd hok (by simp)
        | ok sA =>
          simp only [htr] at hok
          cases hset2 : setNextSnake sA cand (some h) with
          | error e =>
            simp only [hset2] at hok
            exact absurd hok (by simp)
          | ok sB =>
            simp only [hset2] at hok
            have hsB : sB = s1 := by
              have h3 : (Except.ok (sB, cand, s.isFood cand) :
                  Except Err (St × CellId × Bool)) = .ok (s1, h1, b) := hok
              injection h3 with h4
              exact congrArg Prod.fst h4
            rw [← hsB]
            exact setNextSnake_pres sA cand (some h) sB hset2
              (truncate_pres h tf s hn sA htr hinv)

theorem assignFood_pres (g : Graph) (s : St) (pick : CellId) (s1 : St)
    (hok : assign_food g s pick = .ok s1) (hinv : MutExcl s) : MutExcl s1 := by
  rw [assign_food] at hok
  by_cases hemp : (g.cells.filter (fun x => !(isSnake s x))).isEmpty = true
  · rw [if_pos hemp] at hok
    exact absurd hok (by simp)
  · rw [if_neg hemp] at hok
    by_cases hm : pick ∈ g.cells.filter (fun x => !(isSnake s x))
    · rw [if_pos hm] at hok
      exact setIsFood_pres s pick true s1 hok hinv
    · rw [if_neg hm] at hok
      exact absurd hok (by simp)

theorem initAux_pres (g : Graph) :
    ∀ (n : Nat) (picks : List CellId) (s : St) (prev : CellId) (s1 : St),
      setInitialSnakeAux g n picks s prev = .ok s1 → MutExcl s →
      MutExcl s1 := by
  intro n
  induction n with
  | zero =>
    intro picks s prev s1 hok hinv
    have hs : s = s1 := by
      have h2 : (Except.ok s : Except Err St) = .ok s1 := hok
      injection h2
    rw [← hs]
    exact hinv
  | succ n2 ih =>
    intro picks s prev s1 hok hinv
    cases picks with
    | nil => exact absurd hok (by simp [setInitialSnakeAux])
    | cons p rest =>
      simp only [setInitialSnakeAux] at hok
      by_cases hemp :
          ((neighbours g prev).filter fun x => !(isSnake s x)).isEmpty = true
      · rw [if_pos hemp] at hok
        exact absurd hok (by simp)
      · rw [if_neg hemp] at hok
        by_cases hm : p ∈ (neighbours g prev).filter fun x => !(isSnake s x)
        · rw [if_pos hm] at hok
          cases hset : setNextSnake s prev (some p) with
          | error e =>
            simp only [hset] at hok
            exact absurd hok (by simp)
          | ok sA =>
            simp only [hset] at hok
            exact ih rest sA p s1 hok
              (setNextSnake_pres s prev (some p) sA hset hinv)
        · rw [if_neg hm] at hok
          exact absurd hok (by simp)

theorem advance_pres (g : Graph) (tf : Nat) (s : St) (h pm pf : CellId)
    (s1 : St) (h1 : CellId)
    (hok : advance g tf s h pm pf = .ok (s1, h1)) (hinv : MutExcl s) :
    MutExcl s1 := by
  rw [advance] at hok
  cases hget : get_next_snake_head g s tf h pm with
  | error e =>
    simp only [hget] at hok
    exact absurd hok (by simp)
  | ok p =>
    obtain ⟨sA, hA, bA⟩ := p
    simp only [hget] at hok
    have hAinv : MutExcl sA := getNext_pres g tf h pm s sA hA bA hget hinv
    by_cases hb : bA = true
    · rw [if_pos hb] at hok
      cases hass : assign_food g sA pf with
      | error e =>
        simp only [hass] at hok
        exact absurd hok (by simp)
      | ok sB =>
        simp only [hass] at hok
        have hsB : sB = s1 := by
          have h3 : (Except.ok (sB, hA) : Except Err (St × CellId)) =
              .ok (s1, h1) := hok
          injection h3 with h4
          exact congrArg Prod.fst h4
        rw [← hsB]
        exact assignFood_pres g sA pf sB hass hAinv
    · rw [if_neg hb] at hok
      have hsA : sA = s1 := by
        have h3 : (Except.ok (sA, hA) : Except Err (St × CellId)) =
            .ok (s1, h1) := hok
        injection h3 with h4
        exact congrArg Prod.fst h4
      rw [← hsA]
      exact hAinv

theorem Reach_inv (g : Graph) (s : St) (h : CellId) (hr : Reach g s h) :
    MutExcl s := by
  induction hr with
  | init len hp picks pf s1 hd s2 h1 h2 =>
    have hempty : MutExcl emptySt := by
      intro x
      simp [emptySt, isSnake]
    rw [set_initial_snake] at h1
    by_cases hemp : g.cells.isEmpty = true
    · rw [if_pos hemp] at h1
      exact absurd h1 (by simp)
    · rw [if_neg hemp] at h1
      by_cases hm : hp ∈ g.cells
      · rw [if_pos hm] at h1
        cases haux : setInitialSnakeAux g len picks emptySt hp with
        | error e =>
          simp only [haux] at h1
          exact absurd h1 (by simp)
        | ok sA =>
          simp only [haux] at h1
          have hsA : sA = s1 := by
            have h3 : (Except.ok (sA, hp) : Except Err (St × CellId)) =
                .ok (s1, hd) := h1
            injection h3 with h4
            exact congrArg Prod.fst h4
          have hAinv : MutExcl sA :=
            initAux_pres g len picks emptySt hp sA haux hempty
          rw [hsA] at hAinv
          exact assignFood_pres g s1 pf s2 h2 hAinv
      · rw [if_neg hm] at h1
        exact absurd h1 (by simp)
  | step tf s0 h0 pm pf s1 h1 _ ha ih =>
    exact advance_pres g tf s0 h0 pm pf s1 h1 ha ih

/-- C2: `is_snake` and `is_food` are mutually exclusive: an attempt to set
a snake link on a food cell, or the food flag on a snake cell, raises a
`LogicError` before any field is written; each setter preserves the
invariant on success; and the invariant therefore holds in every state
reachable by the simulation's operations. -/
theorem C2_mutual_exclusion (s : St) (c : CellId) (v : Option CellId)
    (b : Bool) :
    (s.isFood c = true → v.isSome = true →
      setNextSnake s c v = .error .logicError) ∧
    (isSnake s c = true → b = true →
      setIsFood s c b = .error .logicError) ∧
    (∀ s1, setNextSnake s c v = .ok s1 → MutExcl s → MutExcl s1) ∧
    (∀ s1, setIsFood s c b = .ok s1 → MutExcl s → MutExcl s1) ∧
    (∀ (g : Graph) (s2 : St) (h2 : CellId), Reach g s2 h2 → MutExcl s2) :=
  ⟨fun hf hv => by simp [setNextSnake, hf, hv],
   fun hs hb => by simp [setIsFood, hs, hb],
   fun s1 hok hinv => setNextSnake_pres s c v s1 hok hinv,
   fun s1 hok hinv => setIsFood_pres s c b s1 hok hinv,
   fun g s2 h2 hr => Reach_inv g s2 h2 hr⟩

/-- Concrete state for the C2 witness: cell 0 is food, nothing is snake. -/
def exFoodSt : St := ⟨fun _ => none, fun c => c == 0⟩

/-- Witness for C2: on the food cell 0, setting a snake link raises the
logic error. -/
theorem C2_witness :
    exFoodSt.isFood 0 = true ∧
    setNextSnake exFoodSt 0 (some 1) = .error .logicError :=
  ⟨rfl, (C2_mutual_exclusion exFoodSt 0 (some 1) true).1 rfl rfl⟩

end SnakeSaver
